import Mathlib

/-!
Verification of the SimulationRunner power-spectrum consistency engine.

The definitions below are a shallow embedding of the Python source:
`SimulationRunner/simulationics.py` (functions `load_genpk` and
`SimulationICs.check_ic_power_spectra`) and `cambpower.py`
(class `CAMBPowerSpectrum`).  Numeric values are modelled in an arbitrary
linear ordered field `F` (instantiated at `ℚ` for concrete evaluation and at
`ℝ` where the real constant pi matters); the transcendental constants and
functions used by the code (`math.pi`, `log10`, `10 ** x`) are passed as
explicit parameters so that the definitions stay computable.
-/

/-- Model of `numpy.searchsorted(l, v)` (side `left`) on a sorted list:
the first index whose element is `≥ v`, or the length when there is none. -/
def searchsorted {F : Type} [LinearOrder F] (l : List F) (v : F) : Nat :=
  (l.findIdx? (fun x => decide (v ≤ x))).getD l.length

/-- Model of the Python slice `l[i:j]`. -/
def pySlice {α : Type} (i j : Nat) (l : List α) : List α :=
  (l.take j).drop i

/-- Running mode-count total of a group of raw rows `(k, P, count)`:
the variable `lcount` of `load_genpk`. -/
def sumCounts {F : Type} [LinearOrderedField F] (g : List (F × F × F)) : F :=
  (g.map (fun t => t.2.2)).sum

/-- Count-weighted mean wavenumber of a group of raw rows:
`np.sum(count[istart:iend]*kk[istart:iend])/lcount` in `load_genpk`. -/
def wK {F : Type} [LinearOrderedField F] (g : List (F × F × F)) : F :=
  (g.map (fun t => t.2.2 * t.1)).sum / sumCounts g

/-- Count-weighted mean power of a group of raw rows:
`np.sum(count[istart:iend]*Pk[istart:iend])/lcount` in `load_genpk`. -/
def wP {F : Type} [LinearOrderedField F] (g : List (F × F × F)) : F :=
  (g.map (fun t => t.2.2 * t.2.1)).sum / sumCounts g

/-- The rebinning loop of `load_genpk` (simulationics.py lines 367-385).
`acc` is the slice `matpow[istart:iend]` accumulated so far.  A bin is
emitted as soon as the accumulated mode count reaches `minmode`; the two
Python `assert` statements (`p >= 0` and `k > 0`) are modelled by
returning `none` (an `AssertionError`) when they fail; a trailing
accumulation that never reaches `minmode` is dropped. -/
def rebin {F : Type} [LinearOrderedField F] (minmode : F) :
    List (F × F × F) → List (F × F × F) → Option (List (F × F))
  | _, [] => some []
  | acc, r :: rest =>
    let acc2 := acc ++ [r]
    if minmode ≤ sumCounts acc2 then
      if 0 ≤ wP acc2 then
        if 0 < wK acc2 then
          (rebin minmode [] rest).map (fun out => (wK acc2, wP acc2) :: out)
        else none
      else none
    else rebin minmode acc2 rest

/-- Model of `load_genpk(infile, box, minmode)` (simulationics.py lines
360-385).  `matpow` is the parsed three-column file content, `pi` stands for
`math.pi`.  Units are converted by `scale = 2*pi/box`:
`kk = matpow[:,0]*scale`, `Pk = matpow[:,1]/scale**3*(2*math.pi)**3`, and the
rows are then rebinned. -/
def load_genpk {F : Type} [LinearOrderedField F]
    (matpow : List (F × F × F)) (box pi minmode : F) : Option (List (F × F)) :=
  let scale := 2 * pi / box
  rebin minmode []
    (matpow.map (fun t => (t.1 * scale, t.2.1 / scale ^ 3 * (2 * pi) ^ 3, t.2.2)))

/-- A tail (or accumulator) of raw rows whose running mode count stays below
`m` at every step: this is what the loop of `load_genpk` silently discards. -/
def TailBad {F : Type} [LinearOrderedField F] (m : F) (t : List (F × F × F)) : Prop :=
  ∀ i, 1 ≤ i → i ≤ t.length → sumCounts (t.take i) < m

theorem tailBad_nil {F : Type} [LinearOrderedField F] (m : F) : TailBad m [] := by
  intro i h1 h2
  simp at h2
  omega

theorem tailBad_append {F : Type} [LinearOrderedField F] {m : F}
    {acc : List (F × F × F)} (r : F × F × F)
    (h : TailBad m acc) (h2 : sumCounts (acc ++ [r]) < m) :
    TailBad m (acc ++ [r]) := by
  intro i hi1 hi2
  rcases Nat.lt_or_ge i (acc.length + 1) with hlt | hge
  · have hle : i ≤ acc.length := by omega
    rw [List.take_append_of_le_length hle]
    exact h i hi1 hle
  · have : i = acc.length + 1 := by
      have := hi2
      simp at this
      omega
    subst this
    have : (acc ++ [r]).take (acc.length + 1) = acc ++ [r] := by
      apply List.take_of_length_le
      simp
    rw [this]
    exact h2

/-- Decomposition of a successful run of the rebinning loop: the input splits
into consecutive emitted groups followed by a discarded tail; every group is
nonempty, has accumulated mode count at least `minmode`, and passed both
asserts; the output is exactly the list of weighted means of the groups. -/
theorem rebin_decomp {F : Type} [LinearOrderedField F] (m : F) :
    ∀ (rows acc : List (F × F × F)) (out : List (F × F)),
      TailBad m acc →
      rebin m acc rows = some out →
      ∃ (gs : List (List (F × F × F))) (rest : List (F × F × F)),
        acc ++ rows = gs.flatten ++ rest
        ∧ (∀ g ∈ gs, g ≠ [] ∧ m ≤ sumCounts g ∧ 0 ≤ wP g ∧ 0 < wK g)
        ∧ out = gs.map (fun g => (wK g, wP g))
        ∧ TailBad m rest := by
  intro rows
  induction rows with
  | nil =>
    intro acc out hacc hreb
    refine ⟨[], acc, by simp, by simp, ?_, hacc⟩
    simp [rebin] at hreb
    simp [hreb.symm]
  | cons r rest ih =>
    intro acc out hacc hreb
    rw [rebin] at hreb
    by_cases hsum : m ≤ sumCounts (acc ++ [r])
    · rw [if_pos hsum] at hreb
      by_cases hp : 0 ≤ wP (acc ++ [r])
      · rw [if_pos hp] at hreb
        by_cases hk : 0 < wK (acc ++ [r])
        · rw [if_pos hk] at hreb
          rcases Option.map_eq_some'.mp hreb with ⟨out2, hout2, hcons⟩
          rcases ih [] out2 (tailBad_nil m) hout2 with
            ⟨gs2, rest2, hsplit, hgood, hout, htail⟩
          refine ⟨(acc ++ [r]) :: gs2, rest2, ?_, ?_, ?_, htail⟩
          · have hsplit2 : rest = gs2.flatten ++ rest2 := by simpa using hsplit
            rw [List.flatten_cons, List.append_assoc, ← hsplit2]
            simp
          · intro g hg
            rcases List.mem_cons.mp hg with hg | hg
            · subst hg
              exact ⟨by simp, hsum, hp, hk⟩
            · exact hgood g hg
          · simp [hcons.symm, hout]
        · rw [if_neg hk] at hreb
          exact absurd hreb (by simp)
      · rw [if_neg hp] at hreb
        exact absurd hreb (by simp)
    · rw [if_neg hsum] at hreb
      push_neg at hsum
      rcases ih (acc ++ [r]) out (tailBad_append r hacc hsum) hreb with
        ⟨gs, rest2, hsplit, hgood, hout, htail⟩
      refine ⟨gs, rest2, ?_, hgood, hout, htail⟩
      rw [← hsplit]
      simp

theorem wK_le_of_bound {F : Type} [LinearOrderedField F] {g : List (F × F × F)} {B : F}
    (hc : ∀ t ∈ g, 0 ≤ t.2.2) (hpos : 0 < sumCounts g)
    (hB : ∀ t ∈ g, t.1 ≤ B) : wK g ≤ B := by
  rw [wK, div_le_iff₀ hpos]
  calc (g.map (fun t => t.2.2 * t.1)).sum
      ≤ (g.map (fun t => t.2.2 * B)).sum := by
        apply List.sum_le_sum
        intro t ht
        exact mul_le_mul_of_nonneg_left (hB t ht) (hc t ht)
    _ = B * sumCounts g := by
        rw [sumCounts]
        rw [List.sum_map_mul_right]
        ring

theorem le_wK_of_bound {F : Type} [LinearOrderedField F] {g : List (F × F × F)} {A : F}
    (hc : ∀ t ∈ g, 0 ≤ t.2.2) (hpos : 0 < sumCounts g)
    (hA : ∀ t ∈ g, A ≤ t.1) : A ≤ wK g := by
  rw [wK, le_div_iff₀ hpos]
  calc A * sumCounts g
      = (g.map (fun t => t.2.2 * A)).sum := by
        rw [sumCounts, List.sum_map_mul_right]
        ring
    _ ≤ (g.map (fun t => t.2.2 * t.1)).sum := by
        apply List.sum_le_sum
        intro t ht
        exact mul_le_mul_of_nonneg_left (hA t ht) (hc t ht)

theorem length_le_flatten_length {α : Type} :
    ∀ (gs : List (List α)), (∀ g ∈ gs, g ≠ []) → gs.length ≤ gs.flatten.length := by
  intro gs
  induction gs with
  | nil => simp
  | cons g gs ih =>
    intro h
    have hg : g ≠ [] := h g (by simp)
    have h1 : 1 ≤ g.length := by
      rcases g with _ | ⟨a, t⟩
      · exact absurd rfl hg
      · simp
    have := ih (fun g2 hg2 => h g2 (by simp [hg2]))
    simp only [List.flatten_cons, List.length_cons, List.length_append]
    omega

/-- Claim C4.  Rebinning invariants of `load_genpk`: on any raw spectrum whose
rows are ordered by increasing wavenumber and whose mode counts are
nonnegative, and for any `minModesPerBin = m ≥ 1`, a successful run of the
rebinning loop splits its input into consecutive nonempty groups each with
mode-count sum at least `m` (a trailing partial accumulation being silently
dropped), emits exactly the count-weighted means of those groups, produces at
most as many bins as input rows, and keeps the bins ordered by increasing
wavenumber. -/
theorem rebin_aggregates {F : Type} [LinearOrderedField F]
    (rows : List (F × F × F)) (out : List (F × F)) (m : F)
    (hm : 1 ≤ m)
    (hsort : List.Pairwise (fun a b => a.1 ≤ b.1) rows)
    (hcount : ∀ t ∈ rows, 0 ≤ t.2.2)
    (hreb : rebin m [] rows = some out) :
    (∃ (gs : List (List (F × F × F))) (rest : List (F × F × F)),
        rows = gs.flatten ++ rest
        ∧ (∀ g ∈ gs, g ≠ [] ∧ m ≤ sumCounts g)
        ∧ out = gs.map (fun g => (wK g, wP g))
        ∧ TailBad m rest)
    ∧ out.length ≤ rows.length
    ∧ List.Pairwise (fun a b => a.1 ≤ b.1) out := by
  rcases rebin_decomp m rows [] out (tailBad_nil m) hreb with
    ⟨gs, rest, hsplit, hgood, hout, htail⟩
  simp only [List.nil_append] at hsplit
  have hmem : ∀ g ∈ gs, ∀ t ∈ g, t ∈ rows := by
    intro g hg t ht
    rw [hsplit]
    exact List.mem_append_left _ (List.mem_flatten.mpr ⟨g, hg, ht⟩)
  have hgpos : ∀ g ∈ gs, 0 < sumCounts g := fun g hg =>
    lt_of_lt_of_le (lt_of_lt_of_le zero_lt_one hm) (hgood g hg).2.1
  refine ⟨⟨gs, rest, hsplit, fun g hg => ⟨(hgood g hg).1, (hgood g hg).2.1⟩, hout, htail⟩,
    ?_, ?_⟩
  · rw [hout, List.length_map, hsplit, List.length_append]
    have := length_le_flatten_length gs (fun g hg => (hgood g hg).1)
    omega
  · rw [hout]
    rw [List.pairwise_map]
    have hflat : List.Pairwise (fun a b => a.1 ≤ b.1) gs.flatten := by
      rw [hsplit] at hsort
      exact (List.pairwise_append.mp hsort).1
    rw [List.pairwise_flatten] at hflat
    rcases hflat with ⟨hin, hacross⟩
    refine List.Pairwise.imp_of_mem ?_ hacross
    intro g h hg hh hgh
    rcases List.exists_cons_of_ne_nil (hgood h hh).1 with ⟨y, t, hy⟩
    have hysep : ∀ x ∈ g, x.1 ≤ y.1 := fun x hx => hgh x hx y (by simp [hy])
    have hylb : ∀ x ∈ h, y.1 ≤ x.1 := by
      intro x hx
      rcases List.mem_cons.mp (hy ▸ hx) with hx2 | hx2
      · rw [hx2]
      · have := hin h hh
        rw [hy] at this
        exact (List.pairwise_cons.mp this).1 x hx2
    calc wK g ≤ y.1 := wK_le_of_bound (fun t ht => hcount t (hmem g hg t ht))
                  (hgpos g hg) hysep
      _ ≤ wK h := le_wK_of_bound (fun t ht => hcount t (hmem h hh t ht))
                  (hgpos h hh) hylb

/-- Witness for `rebin_aggregates` at a concrete input: two raw rows, each
its own bin. -/
theorem rebin_aggregates_witness :
    (∃ (gs : List (List (ℚ × ℚ × ℚ))) (rest : List (ℚ × ℚ × ℚ)),
        [((1 : ℚ), 2, 1), (2, 4, 1)] = gs.flatten ++ rest
        ∧ (∀ g ∈ gs, g ≠ [] ∧ 1 ≤ sumCounts g)
        ∧ [((1 : ℚ), 2), (2, 4)] = gs.map (fun g => (wK g, wP g))
        ∧ TailBad 1 rest)
    ∧ ([((1 : ℚ), 2), (2, 4)] : List (ℚ × ℚ)).length ≤
        ([((1 : ℚ), 2, 1), (2, 4, 1)] : List (ℚ × ℚ × ℚ)).length
    ∧ List.Pairwise (fun (a b : ℚ × ℚ) => a.1 ≤ b.1) [((1 : ℚ), 2), (2, 4)] :=
  rebin_aggregates [((1 : ℚ), 2, 1), (2, 4, 1)] [((1 : ℚ), 2), (2, 4)] 1
    (by norm_num) (by norm_num) (by norm_num)
    (by norm_num [rebin, sumCounts, wK, wP])

/-- Claim C5, amended.  Every pair returned by `load_genpk` has a strictly
positive wavenumber and a nonnegative power: the asserts `k > 0` and
`p >= 0` have been checked on every emitted bin.  (The original claim's
strict positivity of the power is refuted by
`load_genpk_zero_power_returned` below: the code accepts `p = 0`.) -/
theorem load_genpk_output_sign {F : Type} [LinearOrderedField F]
    (matpow : List (F × F × F)) (box pi minmode : F) (out : List (F × F))
    (h : load_genpk matpow box pi minmode = some out) :
    ∀ pr ∈ out, 0 < pr.1 ∧ 0 ≤ pr.2 := by
  intro pr hpr
  simp only [load_genpk] at h
  rcases rebin_decomp minmode _ [] out (tailBad_nil minmode) h with
    ⟨gs, rest, _, hgood, hout, _⟩
  rw [hout] at hpr
  rcases List.mem_map.mp hpr with ⟨g, hg, hpr2⟩
  rw [← hpr2]
  exact ⟨(hgood g hg).2.2.2, (hgood g hg).2.2.1⟩

/-- Witness for `load_genpk_output_sign` at a concrete input. -/
theorem load_genpk_output_sign_witness :
    0 < ((1 : ℚ), (432 : ℚ)).1 ∧ 0 ≤ ((1 : ℚ), (432 : ℚ)).2 :=
  load_genpk_output_sign [((1 : ℚ), 2, 1)] 6 3 1 [((1 : ℚ), (432 : ℚ))]
    (by norm_num [load_genpk, rebin, sumCounts, wK, wP])
    ((1 : ℚ), (432 : ℚ)) (by simp)

/-- Counterexample to claim C5 as stated: a raw row with power exactly zero
is emitted as a bin with `P = 0` and no error is raised, so the returned
powers are not strictly positive (the code's assert is `p >= 0`, not
`p > 0`). -/
theorem load_genpk_zero_power_returned :
    load_genpk [((1 : ℝ), 0, 1)] (2 * Real.pi) Real.pi 1 = some [(1, 0)]
    ∧ ¬ (0 : ℝ) < 0 := by
  have hne : (2 * Real.pi) ≠ 0 := by positivity
  constructor
  · norm_num [load_genpk, div_self hne, rebin, sumCounts, wK, wP]
  · norm_num

/-- Claim C6, amended.  With `boxSize = 2*pi` the unit-conversion scale
factor `2*pi/box` reduces to `1`, so the wavenumbers fed to the rebinning
are exactly the raw wavenumbers; but the powers are the raw powers
multiplied by `(2*pi)^3` (the claim's assertion that the powers are also
returned unchanged is refuted by `load_genpk_box_two_pi_not_raw`). -/
theorem load_genpk_box_two_pi (rows : List (ℝ × ℝ × ℝ)) (m : ℝ) :
    load_genpk rows (2 * Real.pi) Real.pi m
      = rebin m [] (rows.map (fun t => (t.1, t.2.1 * (2 * Real.pi) ^ 3, t.2.2))) := by
  have hne : (2 * Real.pi) ≠ 0 := by positivity
  simp only [load_genpk, div_self hne, one_pow, div_one, mul_one]

/-- Counterexample to claim C6 as stated: at `box = 2*pi` a raw row
`(k, P, n) = (1, 1, 1)` is returned with power `(2*pi)^3 ≠ 1`, so the
physical output power does not equal the raw input power. -/
theorem load_genpk_box_two_pi_not_raw :
    load_genpk [((1 : ℝ), 1, 1)] (2 * Real.pi) Real.pi 1 ≠ some [(1, 1)] := by
  have hne : (2 * Real.pi) ≠ 0 := by positivity
  have hcube : (0 : ℝ) ≤ (2 * Real.pi) ^ 3 := by positivity
  have heval : load_genpk [((1 : ℝ), 1, 1)] (2 * Real.pi) Real.pi 1
      = some [(1, (2 * Real.pi) ^ 3)] := by
    norm_num [load_genpk, div_self hne, rebin, sumCounts, wK, wP, hcube]
  rw [heval]
  intro h
  simp only [Option.some.injEq, List.cons.injEq, Prod.mk.injEq] at h
  have hgt : (1 : ℝ) < (2 * Real.pi) ^ 3 := by
    have h2 : (1 : ℝ) < 2 * Real.pi := by nlinarith [Real.pi_gt_three]
    exact one_lt_pow₀ h2 (by norm_num)
  rw [h.1.2] at hgt
  exact lt_irrefl 1 hgt

/-- Membership and upper-bound property of `List.max?` over a linear order
(this is the value reported as `np.max(error)` in the accuracy error). -/
theorem max?_bounds {F : Type} [LinearOrder F] {l : List F} {m : F}
    (h : l.max? = some m) : m ∈ l ∧ ∀ x ∈ l, x ≤ m := by
  constructor
  · exact List.max?_mem (fun a b => max_choice a b) h
  · exact (List.max?_le_iff (fun _ _ _ => max_le_iff) h).mp (le_refl m)

theorem searchsorted_le_length {F : Type} [LinearOrder F] (l : List F) (v : F) :
    searchsorted l v ≤ l.length := by
  rw [searchsorted]
  cases h : l.findIdx? (fun x => decide (v ≤ x)) with
  | none => simp
  | some i =>
    simp only [Option.getD_some]
    exact le_of_lt (List.findIdx?_eq_some_iff_findIdx_eq.mp h).1

/-- Scan for collapsed neutrino power (simulationics.py lines 312-314):
the first index whose measured power has dropped strictly below `1e-5`
times the first measured power, `ii[0][0]` of
`np.where(Pk_ic < Pk_ic[0]*1e-5)`. -/
def findCollapse {F : Type} [LinearOrderedField F] (Pk : List F) : Option Nat :=
  Pk.findIdx? (fun p => decide (p < Pk.headD 0 * (1 / 100000)))

/-- The species-tagged accuracy failure raised at simulationics.py line 332:
`RuntimeError("Pk accuracy check failed for "+sp+". Max error: "+str(np.max(error)))`. -/
structure CheckErr (F : Type) where
  species : String
  maxError : F
  deriving DecidableEq

/-- The per-species comparison of `check_ic_power_spectra` (simulationics.py
lines 304-332, diagnostic plotting omitted as a pure side effect): the
comparison window is found by `searchsorted`, neutrinos inflate the
tolerance by `4` and override `imax` by the collapse scan, and the check
fails when strictly more than `3` window samples deviate fractionally by
more than the tolerance.  `sp` is the species label, `kk`/`Pk_ic` the
rebinned measurement, `Pk_camb` the theory power at `kk`. -/
def checkOneSpecies {F : Type} [LinearOrderedField F] (sp : String)
    (kk Pk_ic Pk_camb : List F) (box npart pi accuracy : F) : Option (CheckErr F) :=
  let imax0 := searchsorted kk (npart * 2 * pi / box / 4)
  let imin := searchsorted kk (2 * pi / box * 4)
  let acc2 := if sp = "nu" then accuracy * 4 else accuracy
  let imax := if sp = "nu" then
      match findCollapse Pk_ic with
      | some i => i
      | none => imax0
    else imax0
  let error := List.zipWith (fun a b => |a / b - 1|)
    (pySlice imin imax Pk_ic) (pySlice imin imax Pk_camb)
  if 3 < (error.filter (fun e => decide (acc2 < e))).length then
    some ⟨sp, (error.max?).getD 0⟩
  else none

/-- Specification-side formulation: the indices of the comparison window
`[index_min, index_max)`. -/
def windowIdx (imin imax : Nat) : List Nat :=
  List.range' imin (imax - imin)

/-- Specification-side formulation: fractional deviation
`|P_measured/P_theory - 1|` at index `i`. -/
def deviation {F : Type} [LinearOrderedField F] (Pk_ic Pk_camb : List F) (i : Nat) : F :=
  |Pk_ic.getD i 0 / Pk_camb.getD i 0 - 1|

/-- Specification-side formulation: how many window samples deviate by
strictly more than the tolerance. -/
def exceedCount {F : Type} [LinearOrderedField F]
    (Pk_ic Pk_camb : List F) (imin imax : Nat) (tol : F) : Nat :=
  ((windowIdx imin imax).filter
    (fun i => decide (tol < deviation Pk_ic Pk_camb i))).length

/-- Specification-side formulation: the maximum deviation over the window. -/
def windowMaxDev {F : Type} [LinearOrderedField F]
    (Pk_ic Pk_camb : List F) (imin imax : Nat) : F :=
  (((windowIdx imin imax).map (deviation Pk_ic Pk_camb)).max?).getD 0

/-- Specification-side formulation: the tolerance after the species-specific
adjustment (times 4 for neutrinos). -/
def effTol {F : Type} [LinearOrderedField F] (sp : String) (acc : F) : F :=
  if sp = "nu" then acc * 4 else acc

/-- Specification-side formulation: `index_min`, the first rebinned index
with `k ≥ 4·2π/box`. -/
def effImin {F : Type} [LinearOrderedField F] (kk : List F) (box pi : F) : Nat :=
  searchsorted kk (2 * pi / box * 4)

/-- Specification-side formulation: `index_max`, the first rebinned index
with `k ≥ npart·2π/box/4`, overridden for neutrinos by the index of the
first collapsed power when one exists. -/
def effImax {F : Type} [LinearOrderedField F] (sp : String)
    (kk Pk_ic : List F) (box npart pi : F) : Nat :=
  if sp = "nu" then
    (findCollapse Pk_ic).getD (searchsorted kk (npart * 2 * pi / box / 4))
  else searchsorted kk (npart * 2 * pi / box / 4)

/-- Specification-side formulation of steps 3-5 of the consistency check on
an explicit window: fail with the species label and maximum window deviation
when strictly more than 3 window samples exceed the tolerance. -/
def windowCheck {F : Type} [LinearOrderedField F] (Pk_ic Pk_camb : List F)
    (imin imax : Nat) (tol : F) (sp : String) : Option (CheckErr F) :=
  if 3 < exceedCount Pk_ic Pk_camb imin imax tol then
    some ⟨sp, windowMaxDev Pk_ic Pk_camb imin imax⟩
  else none

theorem pySlice_eq_map {α : Type} (l : List α) (d : α) (i j : Nat) (hj : j ≤ l.length) :
    pySlice i j l = (List.range' i (j - i)).map (fun t => l.getD t d) := by
  apply List.ext_getElem
  · simp [pySlice]
    omega
  · intro n h1 h2
    have hlen : ((l.take j).drop i).length = j - i := by
      simp
      omega
    have hn : n < j - i := by
      rw [pySlice] at h1
      omega
    have hin : i + n < l.length := by omega
    simp only [pySlice, List.getElem_drop, List.getElem_take, List.getElem_map,
      List.getElem_range', one_mul]
    rw [List.getD_eq_getElem l d hin]

theorem zipWith_map_same {α β γ : Type} (f : β → β → γ) (g h : α → β) (l : List α) :
    List.zipWith f (l.map g) (l.map h) = l.map (fun x => f (g x) (h x)) := by
  induction l with
  | nil => simp
  | cons a t ih => simp [ih]

theorem length_filter_map_eq {α β : Type} (f : α → β) (p : β → Bool) (l : List α) :
    ((l.map f).filter p).length = (l.filter (fun x => p (f x))).length := by
  induction l with
  | nil => simp
  | cons a t ih =>
    by_cases h : p (f a) = true <;> simp [List.filter_cons, h, ih]

theorem effImax_le_length {F : Type} [LinearOrderedField F] (sp : String)
    (kk Pk_ic : List F) (box npart pi : F) (h1 : Pk_ic.length = kk.length) :
    effImax sp kk Pk_ic box npart pi ≤ kk.length := by
  rw [effImax]
  by_cases hsp : sp = "nu"
  · rw [if_pos hsp]
    cases h : findCollapse Pk_ic with
    | none => simp [searchsorted_le_length]
    | some i =>
      simp only [Option.getD_some]
      rw [findCollapse] at h
      have := (List.findIdx?_eq_some_iff_findIdx_eq.mp h).1
      omega
  · rw [if_neg hsp]
    exact searchsorted_le_length kk _

/-- The per-species comparison equals the specification-side window check on
the effective window and effective tolerance. -/
theorem checkOneSpecies_eq_windowCheck {F : Type} [LinearOrderedField F]
    (sp : String) (kk Pk_ic Pk_camb : List F) (box npart pi acc : F)
    (h1 : Pk_ic.length = kk.length) (h2 : Pk_camb.length = kk.length) :
    checkOneSpecies sp kk Pk_ic Pk_camb box npart pi acc
      = windowCheck Pk_ic Pk_camb (effImin kk box pi)
          (effImax sp kk Pk_ic box npart pi) (effTol sp acc) sp := by
  have himax : effImax sp kk Pk_ic box npart pi ≤ kk.length :=
    effImax_le_length sp kk Pk_ic box npart pi h1
  have herr : List.zipWith (fun a b => |a / b - 1|)
      (pySlice (effImin kk box pi) (effImax sp kk Pk_ic box npart pi) Pk_ic)
      (pySlice (effImin kk box pi) (effImax sp kk Pk_ic box npart pi) Pk_camb)
      = (windowIdx (effImin kk box pi) (effImax sp kk Pk_ic box npart pi)).map
          (deviation Pk_ic Pk_camb) := by
    rw [pySlice_eq_map Pk_ic 0 _ _ (by omega),
      pySlice_eq_map Pk_camb 0 _ _ (by omega),
      windowIdx, zipWith_map_same]
    rfl
  have hsame : (if sp = "nu" then
        match findCollapse Pk_ic with
        | some i => i
        | none => searchsorted kk (npart * 2 * pi / box / 4)
      else searchsorted kk (npart * 2 * pi / box / 4))
      = effImax sp kk Pk_ic box npart pi := by
    rw [effImax]
    by_cases hsp : sp = "nu"
    · rw [if_pos hsp, if_pos hsp]
      cases findCollapse Pk_ic <;> rfl
    · rw [if_neg hsp, if_neg hsp]
  rw [checkOneSpecies, windowCheck]
  simp only [hsame]
  rw [show searchsorted kk (2 * pi / box * 4) = effImin kk box pi from rfl]
  rw [herr]
  rw [show (if sp = "nu" then acc * 4 else acc) = effTol sp acc from rfl]
  rw [exceedCount, length_filter_map_eq, windowMaxDev]

/-- Claim C1.  For every species, with the comparison window
`[index_min, index_max)` (`index_min` the first rebinned index with
`k ≥ 4·2π/box`, `index_max` the first with `k ≥ npart·2π/box/4`, possibly
adjusted for neutrinos) and the possibly inflated tolerance, the check
raises a species-tagged accuracy error if and only if strictly more than 3
window samples have fractional deviation strictly above the tolerance;
with exactly 3 it passes; and a raised error carries the species label and
the maximum observed deviation over the window (an attained upper bound). -/
theorem checkOneSpecies_accuracy_iff {F : Type} [LinearOrderedField F]
    (sp : String) (kk Pk_ic Pk_camb : List F) (box npart pi acc : F)
    (h1 : Pk_ic.length = kk.length) (h2 : Pk_camb.length = kk.length) :
    (checkOneSpecies sp kk Pk_ic Pk_camb box npart pi acc ≠ none
      ↔ 3 < exceedCount Pk_ic Pk_camb (effImin kk box pi)
            (effImax sp kk Pk_ic box npart pi) (effTol sp acc))
    ∧ (exceedCount Pk_ic Pk_camb (effImin kk box pi)
          (effImax sp kk Pk_ic box npart pi) (effTol sp acc) = 3 →
        checkOneSpecies sp kk Pk_ic Pk_camb box npart pi acc = none)
    ∧ (∀ e, checkOneSpecies sp kk Pk_ic Pk_camb box npart pi acc = some e →
        e.species = sp
        ∧ (∀ i ∈ windowIdx (effImin kk box pi) (effImax sp kk Pk_ic box npart pi),
            deviation Pk_ic Pk_camb i ≤ e.maxError)
        ∧ (∃ i ∈ windowIdx (effImin kk box pi) (effImax sp kk Pk_ic box npart pi),
            deviation Pk_ic Pk_camb i = e.maxError)) := by
  rw [checkOneSpecies_eq_windowCheck sp kk Pk_ic Pk_camb box npart pi acc h1 h2]
  refine ⟨?_, ?_, ?_⟩
  · rw [windowCheck]
    by_cases h : 3 < exceedCount Pk_ic Pk_camb (effImin kk box pi)
        (effImax sp kk Pk_ic box npart pi) (effTol sp acc)
    · simp [h]
    · simp [h]
  · intro h3
    rw [windowCheck, h3]
    norm_num
  · intro e he
    rw [windowCheck] at he
    by_cases h : 3 < exceedCount Pk_ic Pk_camb (effImin kk box pi)
        (effImax sp kk Pk_ic box npart pi) (effTol sp acc)
    · rw [if_pos h] at he
      have he2 : e = ⟨sp, windowMaxDev Pk_ic Pk_camb (effImin kk box pi)
          (effImax sp kk Pk_ic box npart pi)⟩ := by
        exact (Option.some.injEq _ _ ▸ he).symm
      have hw : windowIdx (effImin kk box pi) (effImax sp kk Pk_ic box npart pi) ≠ [] := by
        intro h0
        rw [exceedCount, h0] at h
        simp at h
      have hmap : (windowIdx (effImin kk box pi)
          (effImax sp kk Pk_ic box npart pi)).map (deviation Pk_ic Pk_camb) ≠ [] := by
        rw [Ne, List.map_eq_nil_iff]
        exact hw
      cases hm : ((windowIdx (effImin kk box pi)
          (effImax sp kk Pk_ic box npart pi)).map (deviation Pk_ic Pk_camb)).max? with
      | none => exact absurd (List.max?_eq_none_iff.mp hm) hmap
      | some mx =>
        have hbounds := max?_bounds hm
        have hmaxeq : e.maxError = mx := by
          rw [he2, windowMaxDev, hm]
          rfl
        refine ⟨by rw [he2], ?_, ?_⟩
        · intro i hi
          rw [hmaxeq]
          exact hbounds.2 _ (List.mem_map_of_mem (deviation Pk_ic Pk_camb) hi)
        · rcases List.mem_map.mp hbounds.1 with ⟨i, hi, hdev⟩
          exact ⟨i, hi, by rw [hmaxeq, hdev]⟩
    · rw [if_neg h] at he
      cases he

/-- Witness for `checkOneSpecies_accuracy_iff` at a concrete input. -/
theorem checkOneSpecies_accuracy_iff_witness :
    checkOneSpecies "DM" [(1 : ℚ), 2, 3, 4] [1, 1, 1, 1] [1, 1, 1, 1] 24 64 3 (1 / 20) ≠ none
      ↔ 3 < exceedCount [(1 : ℚ), 1, 1, 1] [1, 1, 1, 1]
            (effImin [(1 : ℚ), 2, 3, 4] 24 3)
            (effImax "DM" [(1 : ℚ), 2, 3, 4] [1, 1, 1, 1] 24 64 3) (effTol "DM" (1 / 20)) :=
  (checkOneSpecies_accuracy_iff "DM" [(1 : ℚ), 2, 3, 4] [1, 1, 1, 1] [1, 1, 1, 1]
    24 64 3 (1 / 20) (by decide) (by decide)).1

/-- Claim C3, amended.  The neutrino check applies tolerance `accuracy * 4`,
and its `index_max` is overridden by the index of the first measured power
strictly below `1e-5` times the first measured power whenever such an index
exists (otherwise the `npart·2π/box/4` search result stands).  The override
is a plain replacement, not a clamp: `nu_imax_can_grow` refutes the
original claim that it can only shrink the window. -/
theorem nu_check_factors {F : Type} [LinearOrderedField F]
    (kk Pk_ic Pk_camb : List F) (box npart pi acc : F)
    (h1 : Pk_ic.length = kk.length) (h2 : Pk_camb.length = kk.length) :
    checkOneSpecies "nu" kk Pk_ic Pk_camb box npart pi acc
      = windowCheck Pk_ic Pk_camb (effImin kk box pi)
          (effImax "nu" kk Pk_ic box npart pi) (acc * 4) "nu"
    ∧ (∀ i, findCollapse Pk_ic = some i → effImax "nu" kk Pk_ic box npart pi = i)
    ∧ (findCollapse Pk_ic = none → effImax "nu" kk Pk_ic box npart pi
        = searchsorted kk (npart * 2 * pi / box / 4)) := by
  refine ⟨?_, ?_, ?_⟩
  · have h := checkOneSpecies_eq_windowCheck "nu" kk Pk_ic Pk_camb box npart pi acc h1 h2
    rw [h]
    rfl
  · intro i hi
    rw [effImax, if_pos rfl, hi]
    rfl
  · intro hn
    rw [effImax, if_pos rfl, hn]
    rfl

/-- Witness for `nu_check_factors` at a concrete input. -/
theorem nu_check_factors_witness :
    effImax "nu" [(1 : ℚ), 2, 3, 4] [1, 1, 1, 1 / 1000000] 24 4 3 = 3 :=
  (nu_check_factors [(1 : ℚ), 2, 3, 4] [1, 1, 1, 1 / 1000000] [1, 1, 1, 1]
    24 4 3 (1 / 20) (by decide) (by decide)).2.1 3
    (by norm_num [findCollapse, List.findIdx?_cons])

/-- Counterexample to claim C3 as stated: with measured neutrino powers
`[1, 1, 1, 1e-6]` on wavenumbers `[1, 2, 3, 4]` (box 24, npart 4), the
`npart·2π/box/4` search gives `index_max = 0` but the collapse scan moves
`index_max` to `3`, strictly beyond it — the override can enlarge the
comparison window, not only shrink it. -/
theorem nu_imax_can_grow :
    ¬ (effImax "nu" [(1 : ℚ), 2, 3, 4] [1, 1, 1, 1 / 1000000] 24 4 3
        ≤ searchsorted [(1 : ℚ), 2, 3, 4] ((4 : ℚ) * 2 * 3 / 24 / 4)) := by
  norm_num [effImax, findCollapse, searchsorted, List.findIdx?_cons]

/-- Selection of the theory composition (simulationics.py lines 297-303):
which CAMB species curve a measurement is compared against, as a function of
the `separate_gas` and `separate_nu` flags. -/
def theory_species (separate_gas separate_nu : Bool) (sp : String) : String :=
  if separate_gas = false ∧ separate_nu = false ∧ sp = "DM" then "tot"
  else if separate_gas = false ∧ separate_nu = true ∧ sp = "DM" then "DMby"
  else sp

/-- Claim C2.  The theory composition compared against the `DM` measurement
is `tot` when both gas and neutrinos are combined into DM, `DMby` when gas
is combined but neutrinos are separate, and the `DM` curve itself whenever
gas is separated; `by` and `nu` always compare against their own curves. -/
theorem theory_species_composition :
    theory_species false false "DM" = "tot"
    ∧ theory_species false true "DM" = "DMby"
    ∧ (∀ sn, theory_species true sn "DM" = "DM")
    ∧ (∀ sg sn, theory_species sg sn "by" = "by" ∧ theory_species sg sn "nu" = "nu") := by
  refine ⟨rfl, rfl, ?_, ?_⟩
  · intro sn
    cases sn <;> rfl
  · intro sg sn
    cases sg <;> cases sn <;> exact ⟨rfl, rfl⟩

/-- The errors `check_ic_power_spectra` can raise: the
`assert os.path.exists(go)` for a mandatory missing measurement file, an
`AssertionError` inside `load_genpk`, or the species-tagged accuracy
`RuntimeError`. -/
inductive ICErr (F : Type) where
  | missingFile (sp : String)
  | loadAssert
  | accuracy (e : CheckErr F)
  deriving DecidableEq

/-- One iteration of the species loop of `check_ic_power_spectra`
(simulationics.py lines 287-332).  `camb` maps a theory species label and
the measured wavenumbers to the theory powers (`camb.get_camb_power`);
`files` gives the parsed content of the per-species GenPK output file, or
`none` when the file does not exist.  Returns the error raised (if any)
together with the value of the loop variable `accuracy` after the
iteration (the neutrino branch executes `accuracy *= 4`). -/
def speciesStep {F : Type} [LinearOrderedField F] (camb : String → List F → List F)
    (sg sn : Bool) (files : String → Option (List (F × F × F)))
    (box npart pi : F) (acc : F) (sp : String) : Option (ICErr F) × F :=
  match files sp with
  | none =>
    if sp = "DM" ∨ (sg = true ∧ sp = "by") then (some (ICErr.missingFile sp), acc)
    else (none, acc)
  | some raw =>
    match load_genpk raw box pi 1 with
    | none => (some ICErr.loadAssert, acc)
    | some kp =>
      let kk := kp.map Prod.fst
      let Pk_ic := kp.map Prod.snd
      let Pk_camb := camb (theory_species sg sn sp) kk
      ((checkOneSpecies sp kk Pk_ic Pk_camb box npart pi acc).map ICErr.accuracy,
        if sp = "nu" then acc * 4 else acc)

/-- The species loop of `check_ic_power_spectra`, threading the mutable
`accuracy` variable and aborting at the first raised error. -/
def runSpecies {F : Type} [LinearOrderedField F] (camb : String → List F → List F)
    (sg sn : Bool) (files : String → Option (List (F × F × F)))
    (box npart pi : F) : List String → F → Option (ICErr F)
  | [], _ => none
  | sp :: rest, acc =>
    match speciesStep camb sg sn files box npart pi acc sp with
    | (some e, _) => some e
    | (none, acc2) => runSpecies camb sg sn files box npart pi rest acc2

/-- Model of `check_ic_power_spectra` (simulationics.py lines 268-332): the
loop `for sp in ["DM","by", "nu"]` with the initial caller-supplied
`accuracy`.  Returns the first error raised, or `none` on success. -/
def check_ic_power_spectra {F : Type} [LinearOrderedField F]
    (camb : String → List F → List F) (sg sn : Bool)
    (files : String → Option (List (F × F × F)))
    (box npart pi acc : F) : Option (ICErr F) :=
  runSpecies camb sg sn files box npart pi ["DM", "by", "nu"] acc

/-- First raised error among a list of independent per-species outcomes. -/
def firstSome {α : Type} : List (Option α) → Option α
  | [] => none
  | some a :: _ => some a
  | none :: rest => firstSome rest

theorem speciesStep_acc_of_ne_nu {F : Type} [LinearOrderedField F]
    (camb : String → List F → List F) (sg sn : Bool)
    (files : String → Option (List (F × F × F)))
    (box npart pi acc : F) (sp : String) (h : ¬ sp = "nu") :
    (speciesStep camb sg sn files box npart pi acc sp).2 = acc := by
  rw [speciesStep]
  cases hf : files sp with
  | none =>
    by_cases hc : sp = "DM" ∨ (sg = true ∧ sp = "by") <;> simp [hc]
  | some raw =>
    cases hload : load_genpk raw box pi 1 with
    | none => simp [hload]
    | some kp => simp [hload, h]

theorem runSpecies_cons {F : Type} [LinearOrderedField F]
    (camb : String → List F → List F) (sg sn : Bool)
    (files : String → Option (List (F × F × F)))
    (box npart pi acc : F) (sp : String) (rest : List String) :
    runSpecies camb sg sn files box npart pi (sp :: rest) acc
      = match speciesStep camb sg sn files box npart pi acc sp with
        | (some e, _) => some e
        | (none, acc2) => runSpecies camb sg sn files box npart pi rest acc2 := by
  rw [runSpecies]

/-- Claim C9.  The checker is stateless across species: the whole run
decomposes into the three per-species outcomes, each evaluated at the
original caller-supplied tolerance (so the `accuracy *= 4` executed in the
neutrino branch never changes the tolerance applied to the DM or baryon
checks), and the outcome of a species depends on the measurement files only
through that species' own file. -/
theorem check_loop_decomposition {F : Type} [LinearOrderedField F]
    (camb : String → List F → List F) (sg sn : Bool)
    (files : String → Option (List (F × F × F))) (box npart pi acc : F) :
    (check_ic_power_spectra camb sg sn files box npart pi acc
      = firstSome [(speciesStep camb sg sn files box npart pi acc "DM").1,
          (speciesStep camb sg sn files box npart pi acc "by").1,
          (speciesStep camb sg sn files box npart pi acc "nu").1])
    ∧ (∀ sp, ∀ files2 : String → Option (List (F × F × F)),
        files sp = files2 sp →
        (speciesStep camb sg sn files box npart pi acc sp).1
          = (speciesStep camb sg sn files2 box npart pi acc sp).1) := by
  constructor
  · rw [check_ic_power_spectra, runSpecies_cons]
    have hDM := speciesStep_acc_of_ne_nu camb sg sn files box npart pi acc "DM" (by decide)
    have hby := speciesStep_acc_of_ne_nu camb sg sn files box npart pi acc "by" (by decide)
    rcases hstep : speciesStep camb sg sn files box npart pi acc "DM" with ⟨e1, a1⟩
    have ha1 : a1 = acc := by
      rw [hstep] at hDM
      exact hDM
    cases e1 with
    | some e => simp [firstSome]
    | none =>
      rw [ha1]
      dsimp only
      rw [runSpecies_cons]
      rcases hstep2 : speciesStep camb sg sn files box npart pi acc "by" with ⟨e2, a2⟩
      have ha2 : a2 = acc := by
        rw [hstep2] at hby
        exact hby
      cases e2 with
      | some e => simp [firstSome]
      | none =>
        rw [ha2]
        dsimp only
        rw [runSpecies_cons]
        rcases hstep3 : speciesStep camb sg sn files box npart pi acc "nu" with ⟨e3, a3⟩
        cases e3 with
        | some e => simp [firstSome, runSpecies]
        | none => simp [firstSome, runSpecies]
  · intro sp files2 hf
    rw [speciesStep, speciesStep, hf]

/-- Witness for `check_loop_decomposition`: the per-species outcome is
unchanged when the other species' files are unchanged, at a concrete input. -/
theorem check_loop_decomposition_witness :
    (speciesStep (fun _ _ => ([] : List ℚ)) false false (fun _ => none) 1 1 1 1 "DM").1
      = (speciesStep (fun _ _ => ([] : List ℚ)) false false (fun _ => none) 1 1 1 1 "DM").1 :=
  (check_loop_decomposition (fun _ _ => ([] : List ℚ)) false false (fun _ => none)
    1 1 1 1).2 "DM" (fun _ => none) rfl

/-- Claim C7, amended.  `DM` is mandatory: a missing `DM` measurement file
raises the missing-file assertion.  `by` is mandatory when `separate_gas`
is true; when `separate_gas` is false a missing `by` file is skipped
silently — but an existing one is still checked (see
`by_checked_without_separate_gas`, refuting the original claim that `by`
is checked only when `separate_gas` is true).  A missing `nu` file is
always skipped silently. -/
theorem species_mandatory_rules {F : Type} [LinearOrderedField F]
    (camb : String → List F → List F) (sg sn : Bool)
    (files : String → Option (List (F × F × F))) (box npart pi acc : F) :
    (files "DM" = none →
      (speciesStep camb sg sn files box npart pi acc "DM").1
        = some (ICErr.missingFile "DM"))
    ∧ (sg = true → files "by" = none →
      (speciesStep camb sg sn files box npart pi acc "by").1
        = some (ICErr.missingFile "by"))
    ∧ (sg = false → files "by" = none →
      (speciesStep camb sg sn files box npart pi acc "by").1 = none)
    ∧ (files "nu" = none →
      (speciesStep camb sg sn files box npart pi acc "nu").1 = none) := by
  refine ⟨?_, ?_, ?_, ?_⟩
  · intro h
    rw [speciesStep, h]
    simp
  · intro hsg h
    rw [speciesStep, h, hsg]
    simp
  · intro hsg h
    rw [speciesStep, h, hsg]
    simp
  · intro h
    rw [speciesStep, h]
    simp

/-- Witness for `species_mandatory_rules` at a concrete input. -/
theorem species_mandatory_rules_witness :
    (speciesStep (fun _ _ => ([] : List ℚ)) false false (fun _ => none) 1 1 1 1 "nu").1
      = none :=
  (species_mandatory_rules (fun _ _ => ([] : List ℚ)) false false (fun _ => none)
    1 1 1 1).2.2.2 rfl

/-- Counterexample to claim C7 as stated: with `separate_gas = false`, an
existing baryon measurement file is still loaded and checked — here it
fails the accuracy check (every window deviation is `8`), so the whole run
raises the `by`-tagged accuracy error even though the claim says `by` is
checked only when `separate_gas` is true. -/
theorem by_checked_without_separate_gas :
    check_ic_power_spectra
      (fun _ kk => kk.map (fun _ => (1 : ℚ)))
      false false
      (fun sp =>
        if sp = "DM" then
          some [((4 : ℚ), 1 / 13824, 1), (8, 1 / 13824, 1), (12, 1 / 13824, 1),
            (14, 1 / 13824, 1)]
        else if sp = "by" then
          some [((4 : ℚ), 9 / 13824, 1), (8, 9 / 13824, 1), (12, 9 / 13824, 1),
            (14, 9 / 13824, 1)]
        else none)
      24 64 3 (1 / 20)
      = some (ICErr.accuracy ⟨"by", 8⟩) := by
  norm_num [check_ic_power_spectra, runSpecies, speciesStep, load_genpk, rebin,
    sumCounts, wK, wP, theory_species, checkOneSpecies, searchsorted, findCollapse,
    pySlice, List.findIdx?_cons, List.filter_cons, List.max?,
    (show ¬ ("DM" : String) = "nu" by decide), (show ¬ ("by" : String) = "nu" by decide),
    (show ¬ ("by" : String) = "DM" by decide), (show ¬ ("nu" : String) = "DM" by decide),
    (show ¬ ("nu" : String) = "by" by decide), (show ¬ ("DM" : String) = "by" by decide)]

/-- Evaluation of a `scipy.interpolate.interp1d` interpolant, modelled only
through the property the claims use: a cubic interpolant is exact at its
nodes.  Off-node values (library-internal spline numerics) and the
out-of-range error are outside the embedding and return `0` here. -/
def interpEval {F : Type} [LinearOrderedField F] (nodes : List (F × F)) (x : F) : F :=
  match nodes.find? (fun p => decide (p.1 = x)) with
  | some p => p.2
  | none => 0

/-- The state built by `CAMBPowerSpectrum.__init__` (cambpower.py lines
8-27): the interpolation nodes of `self.dpk` (log10 k against log10 P), the
string-keyed dictionary `self.dtk` of per-species transfer-ratio
interpolant nodes, and `self.kk`. -/
structure CAMBPowerSpectrum (F : Type) where
  dpkNodes : List (F × F)
  dtk : List (String × List (F × F))
  kk : List F

/-- Lookup in the string-keyed dictionary `self.dtk`; `none` models the
`KeyError` raised by `self.dtk[species]` for an unknown key. -/
def lookupStr {α : Type} (d : List (String × α)) (s : String) : Option α :=
  (d.find? (fun p => decide (p.1 = s))).map Prod.snd

/-- Model of `CAMBPowerSpectrum.__init__(camb_matter, camb_transfer, kmin,
kmax)` (cambpower.py lines 8-27).  `matter` is the parsed two-column matter
power table, `transfer` the parsed multi-column transfer table; `log10` and
`pow10` stand for `np.log10` and `10 ** x`.  Both tables are truncated by
`searchsorted` to the `[kmin, kmax)` window before the interpolant nodes
are built; the transfer ordinates are `(tk[:,c]/tk[:,6])**2` for column
`c = 1` (DM), `2` (baryons), `5` (massive neutrinos), `7` (DM+baryons). -/
def cambInit {F : Type} [LinearOrderedField F] (log10 pow10 : F → F)
    (matter : List (F × F)) (transfer : List (List F)) (kmin kmax : F) :
    CAMBPowerSpectrum F :=
  let pk_camb := matter.map (fun r => (log10 r.1, log10 r.2))
  let lpi := searchsorted (pk_camb.map Prod.fst) (log10 kmin)
  let hpi := searchsorted (pk_camb.map Prod.fst) (log10 kmax)
  let lti := searchsorted (transfer.map (fun r => r.getD 0 0)) kmin
  let hti := searchsorted (transfer.map (fun r => r.getD 0 0)) kmax
  let rows := pySlice lti hti transfer
  let mk := fun (c : Nat) =>
    rows.map (fun r => (log10 (r.getD 0 0), (r.getD c 0 / r.getD 6 0) ^ 2))
  ⟨pySlice lpi hpi pk_camb,
    [("DM", mk 1), ("by", mk 2), ("nu", mk 5), ("DMby", mk 7)],
    (pySlice lpi hpi pk_camb).map (fun r => pow10 r.1)⟩

/-- Model of `CAMBPowerSpectrum.get_camb_power(kvals, species)`
(cambpower.py lines 29-37): `tot` queries the matter power interpolant
directly; any other species multiplies it by the transfer-ratio
interpolant fetched from the dictionary, raising `KeyError` (`none`) for
an unknown key. -/
def get_camb_power {F : Type} [LinearOrderedField F] (log10 pow10 : F → F)
    (c : CAMBPowerSpectrum F) (kvals : List F) (species : String) :
    Option (List F) :=
  let lgkvals := kvals.map log10
  if species = "tot" then
    some (lgkvals.map (fun x => pow10 (interpEval c.dpkNodes x)))
  else
    match lookupStr c.dtk species with
    | none => none
    | some nodes =>
      some (lgkvals.map (fun x => pow10 (interpEval c.dpkNodes x) * interpEval nodes x))

/-- Specification-side formulation: the transfer rows kept by the
`searchsorted` truncation to `[kmin, kmax)`. -/
def transferWindow {F : Type} [LinearOrderedField F]
    (transfer : List (List F)) (kmin kmax : F) : List (List F) :=
  pySlice (searchsorted (transfer.map (fun row => row.getD 0 0)) kmin)
    (searchsorted (transfer.map (fun row => row.getD 0 0)) kmax) transfer

/-- Specification-side formulation of claim C8's wording for the transfer
interpolant ordinate: log10 of the squared normalized transfer ratio.  The
source stores the squared ratio itself, without the log10 — see
`transfer_ordinate_not_log`. -/
def specTransferOrdinate {F : Type} [LinearOrderedField F] (log10 : F → F)
    (row : List F) (c : Nat) : F :=
  log10 ((row.getD c 0 / row.getD 6 0) ^ 2)

/-- Claim C10.  `get_camb_power` on a constructed model returns a value
exactly for the species labels `tot`, `DM`, `by`, `nu`, `DMby`; every other
label hits the dictionary lookup and raises (`none`), never returning a
value. -/
theorem get_camb_power_keys {F : Type} [LinearOrderedField F]
    (log10 pow10 : F → F) (matter : List (F × F)) (transfer : List (List F))
    (kmin kmax : F) (kvals : List F) (species : String) :
    (get_camb_power log10 pow10 (cambInit log10 pow10 matter transfer kmin kmax)
        kvals species).isSome
      ↔ species ∈ ["tot", "DM", "by", "nu", "DMby"] := by
  rw [get_camb_power]
  by_cases ht : species = "tot"
  · simp [ht]
  · rw [if_neg ht]
    by_cases h1 : species = "DM"
    · subst h1
      simp [cambInit, lookupStr]
    · by_cases h2 : species = "by"
      · subst h2
        simp [cambInit, lookupStr]
      · by_cases h3 : species = "nu"
        · subst h3
          simp [cambInit, lookupStr]
        · by_cases h4 : species = "DMby"
          · subst h4
            simp [cambInit, lookupStr]
          · simp [cambInit, lookupStr, List.find?, Ne.symm h1, Ne.symm h2,
              Ne.symm h3, Ne.symm h4, ht, h1, h2, h3, h4]

/-- Claim C8, amended.  For each species `s` with its assigned transfer
column `c` (`DM`:1, `by`:2, `nu`:5, `DMby`:7), construction stores the
interpolant nodes `(log10 k_i, (tk_i[c]/tk_i[6])^2)` over the truncated
transfer window — the ordinate is the squared normalized transfer ratio
itself, not its log10 (the original claim's log10 is refuted by
`transfer_ordinate_not_log`) — and a query at a wavenumber `k` tabulated in
both tables returns `pow10(dpk(log10 k))` times the species interpolant at
`log10 k`, which equals `P_tot(k) * (T_s(k)/T_ref(k))^2`. -/
theorem camb_power_at_node {F : Type} [LinearOrderedField F]
    (log10 pow10 : F → F) (matter : List (F × F)) (transfer : List (List F))
    (kmin kmax : F) (s : String) (c : Nat)
    (hs : (s, c) ∈ [("DM", 1), ("by", 2), ("nu", 5), ("DMby", 7)])
    (k P r : F)
    (hfindP : (cambInit log10 pow10 matter transfer kmin kmax).dpkNodes.find?
        (fun p => decide (p.1 = log10 k)) = some (log10 k, log10 P))
    (hfindT : (((transferWindow transfer kmin kmax).map
        (fun row => (log10 (row.getD 0 0), (row.getD c 0 / row.getD 6 0) ^ 2))).find?
          (fun p => decide (p.1 = log10 k))) = some (log10 k, r))
    (hinv : pow10 (log10 P) = P) :
    (lookupStr (cambInit log10 pow10 matter transfer kmin kmax).dtk s
      = some ((transferWindow transfer kmin kmax).map
          (fun row => (log10 (row.getD 0 0), (row.getD c 0 / row.getD 6 0) ^ 2))))
    ∧ get_camb_power log10 pow10 (cambInit log10 pow10 matter transfer kmin kmax)
        [k] s = some [P * r] := by
  have hlook : lookupStr (cambInit log10 pow10 matter transfer kmin kmax).dtk s
      = some ((transferWindow transfer kmin kmax).map
          (fun row => (log10 (row.getD 0 0), (row.getD c 0 / row.getD 6 0) ^ 2))) := by
    simp only [List.mem_cons, List.mem_singleton, Prod.mk.injEq] at hs
    rcases hs with ⟨hs1, hs2⟩ | ⟨hs1, hs2⟩ | ⟨hs1, hs2⟩ | ⟨hs1, hs2⟩ | h
    all_goals first
      | (subst hs1; subst hs2; simp [cambInit, lookupStr, transferWindow, pySlice])
      | exact absurd h (by simp)
  refine ⟨hlook, ?_⟩
  have hne : ¬ s = "tot" := by
    simp only [List.mem_cons, Prod.mk.injEq] at hs
    rcases hs with ⟨hs1, _⟩ | ⟨hs1, _⟩ | ⟨hs1, _⟩ | ⟨hs1, _⟩ | h
    · rw [hs1]; decide
    · rw [hs1]; decide
    · rw [hs1]; decide
    · rw [hs1]; decide
    · exact absurd h (by simp)
  rw [get_camb_power]
  simp only [List.map_cons, List.map_nil, if_neg hne, hlook]
  have hdpk : interpEval (cambInit log10 pow10 matter transfer kmin kmax).dpkNodes
      (log10 k) = log10 P := by
    rw [interpEval, hfindP]
  have hnode : interpEval ((transferWindow transfer kmin kmax).map
      (fun row => (log10 (row.getD 0 0), (row.getD c 0 / row.getD 6 0) ^ 2)))
      (log10 k) = r := by
    rw [interpEval, hfindT]
  rw [hdpk, hnode, hinv]

/-- Witness for `camb_power_at_node` at a concrete input over `ℚ` with the
identity standing in for the log and exponential parameters. -/
theorem camb_power_at_node_witness :
    get_camb_power (fun x => x) (fun x => x)
      (cambInit (fun x => x) (fun x => x) [((10 : ℚ), 100)]
        [[10, 3, 0, 0, 0, 0, 1, 0]] 1 20) [10] "DM" = some [(100 : ℚ) * 9] :=
  (camb_power_at_node (fun x => x) (fun x => x) [((10 : ℚ), 100)]
    [[10, 3, 0, 0, 0, 0, 1, 0]] 1 20 "DM" 1 (by decide) 10 100 9
    (by norm_num [cambInit, searchsorted, pySlice, List.findIdx?_cons, List.find?])
    (by norm_num [transferWindow, searchsorted, pySlice, List.findIdx?_cons, List.find?])
    rfl).2

/-- Counterexample to claim C8 as stated: for a transfer table whose row has
`T_DM/T_ref = 1` the constructed `DM` interpolant node ordinate is the
squared ratio `1`, whereas the claim's `log10` of the squared ratio is
`log10 1 = 0 ≠ 1`. -/
theorem transfer_ordinate_not_log :
    lookupStr (cambInit (Real.logb 10) (fun x => (10 : ℝ) ^ x) [((1 : ℝ), 1)]
        [[1, 1, 0, 0, 0, 0, 1, 0]] 1 2).dtk "DM" = some [((0 : ℝ), 1)]
    ∧ (1 : ℝ) ≠ specTransferOrdinate (Real.logb 10) [1, 1, 0, 0, 0, 0, 1, 0] 1 := by
  constructor
  · norm_num [cambInit, lookupStr, searchsorted, pySlice, List.findIdx?_cons,
      List.find?, Real.logb_one]
  · norm_num [specTransferOrdinate, Real.logb_one]
